import Mathlib

/-!
Verification development for the medtimeline clinical-record pipeline.

The definitions below are a shallow embedding of the TypeScript sources:
- `Observation` construction from `src/app/fhir-data-classes/observation.ts`
- axis dispatch from the `Axis` class (`Axis.getDataFromFhir`)
- the `LabeledSeries` builder, whose implementation file is not part of the
  sources at hand (only its unit tests are); those definitions are modelled
  from the specification and are marked as such in their doc comments.

JavaScript peculiarities that matter to the claims are modelled explicitly:
the distinction between `undefined` and `null` (type `JsVal`), string
falsiness, and the crash on indexing an empty array.
-/

/-- A JavaScript value slot that can be undefined, null, or hold a value. -/
inductive JsVal (α : Type) where
  | undefv : JsVal α
  | nullv : JsVal α
  | val : α → JsVal α
deriving DecidableEq, Repr

/-- Models the JavaScript strict comparison `x === null`. -/
def JsVal.isNullJs {α : Type} : JsVal α → Bool
  | .nullv => true
  | _ => false

/-- Models JavaScript falsiness `!x` for a string slot that is either
absent (`undefined`) or a string: absent and the empty string are falsy. -/
def strFalsy : Option String → Bool
  | none => true
  | some s => s = ""

/-- Whether the first character list starts the second. -/
def charsStart : List Char → List Char → Bool
  | [], _ => true
  | _ :: _, [] => false
  | a :: as, b :: bs => a = b && charsStart as bs

/-- Helper for substring search over character lists. -/
def charsContain (needle : List Char) : List Char → Bool
  | [] => needle.isEmpty
  | c :: t => charsStart needle (c :: t) || charsContain needle t

/-- Models JavaScript `hay.indexOf(needle) !== -1`: substring containment. -/
def strContains (hay needle : String) : Bool :=
  charsContain needle.data hay.data

/-- A resource code, tagged with its coding-system variant: lab (LOINC),
medication (RxNorm) or microbiology (BCH). Mirrors the three `ResourceCode`
subclasses used by the `instanceof` checks in `Axis.getDataFromFhir`. -/
inductive RCode where
  | lab : String → RCode
  | med : String → RCode
  | micro : String → RCode
deriving DecidableEq, Repr

/-- The coding-system constants and recognition tables referenced by
`observation.ts`. The constant strings and the LOINC / interpretation
lookup tables live in files outside the sources at hand, so they are kept
abstract as parameters; the constructor logic itself is taken verbatim
from `observation.ts`. -/
structure CodingConfig where
  /-- `BCHMicrobioCode.CODING_STRING`. -/
  bchSystem : String
  /-- `LOINCCode.CODING_STRING`. -/
  loincSystem : String
  /-- Whether `LOINCCode.fromCodeString` recognizes a code string. -/
  loincRecognized : String → Bool
  /-- `OBSERVATION_INTERPRETATION_VALUESET_URL`. -/
  interpUrl : String
  /-- `ObservationInterpretation.codeToObject.has`. -/
  interpHas : String → Bool

/-- One entry of a raw record's `coding` array. -/
structure RawCoding where
  system : Option String
  code : String
  display : Option String
deriving DecidableEq, Repr

/-- The raw record's `code` field: `{text, coding}`. -/
structure RawCodeField where
  text : Option String
  coding : Option (List RawCoding)
deriving DecidableEq, Repr

/-- The raw record's `interpretation` field: `{coding}`. -/
structure RawInterp where
  coding : Option (List RawCoding)
deriving DecidableEq, Repr

/-- The raw record's `valueCodeableConcept` field: `{text}`. -/
structure RawCC where
  text : Option String
deriving DecidableEq, Repr

/-- A FHIR quantity as stored by `observation.ts` (`{value, unit}`;
the remaining FHIR quantity attributes play no role in the claims). -/
structure Quantity where
  value : ℚ
  unit : String
deriving DecidableEq, Repr

/-- One entry of the raw record's `referenceRange` array; `low`/`high`
are optional `{value}` objects, modelled by their optional values. -/
structure RawRangeEntry where
  low : Option ℚ
  high : Option ℚ
deriving DecidableEq, Repr

/-- A raw observation record, restricted to the fields the `Observation`
constructor reads. Timestamps are abstracted to integers (the constructor
only copies them through `DateTime.fromISO`). `component` is a list; an
absent `component` and an empty array behave identically in the source
(the `forEach` body never runs), so both are modelled as `[]`. -/
inductive RawObservation where
  | mk
      (effectiveDateTime : Option ℤ)
      (issued : Option ℤ)
      (code : Option RawCodeField)
      (interpretation : Option RawInterp)
      (component : List RawObservation)
      (valueQuantity : Option Quantity)
      (valueCodeableConcept : Option RawCC)
      (referenceRange : Option (List RawRangeEntry))
      : RawObservation

def RawObservation.effectiveDateTime : RawObservation → Option ℤ
  | .mk e _ _ _ _ _ _ _ => e

def RawObservation.issued : RawObservation → Option ℤ
  | .mk _ i _ _ _ _ _ _ => i

def RawObservation.code : RawObservation → Option RawCodeField
  | .mk _ _ c _ _ _ _ _ => c

def RawObservation.interpretation : RawObservation → Option RawInterp
  | .mk _ _ _ it _ _ _ _ => it

def RawObservation.component : RawObservation → List RawObservation
  | .mk _ _ _ _ comp _ _ _ => comp

def RawObservation.valueQuantity : RawObservation → Option Quantity
  | .mk _ _ _ _ _ vq _ _ => vq

def RawObservation.valueCodeableConcept : RawObservation → Option RawCC
  | .mk _ _ _ _ _ _ vcc _ => vcc

def RawObservation.referenceRange : RawObservation → Option (List RawRangeEntry)
  | .mk _ _ _ _ _ _ _ rr => rr

/-- The errors the `Observation` constructor can throw, plus the JavaScript
`TypeError` raised when the source indexes `coding[0]` on an empty array. -/
inductive ObsError where
  | unsupportedInterpretation : String → ObsError
  | noUsableCode : ObsError
  | noLabel : ObsError
  | emptyObservation : ObsError
  | jsTypeError : ObsError
deriving DecidableEq, Repr

/-- The parsed `Observation` object, with the fields assigned by the
constructor in `observation.ts`. `label`, `display` and `unit` use
`Option` for possibly-undefined strings; `value`, `result` and
`interpretation` use `JsVal` because the constructor's emptiness guard
distinguishes `null` from `undefined` with strict equality. -/
inductive Observation where
  | mk
      (timestamp : Option ℤ)
      (codes : List RCode)
      (label : Option String)
      (display : Option String)
      (value : JsVal Quantity)
      (unit : Option String)
      (result : JsVal String)
      (interpretation : JsVal String)
      (innerComponents : List Observation)
      (normalRange : Option (ℚ × ℚ))
      : Observation

def Observation.timestamp : Observation → Option ℤ
  | .mk t _ _ _ _ _ _ _ _ _ => t

def Observation.codes : Observation → List RCode
  | .mk _ c _ _ _ _ _ _ _ _ => c

def Observation.label : Observation → Option String
  | .mk _ _ l _ _ _ _ _ _ _ => l

def Observation.display : Observation → Option String
  | .mk _ _ _ d _ _ _ _ _ _ => d

def Observation.value : Observation → JsVal Quantity
  | .mk _ _ _ _ v _ _ _ _ _ => v

def Observation.unit : Observation → Option String
  | .mk _ _ _ _ _ u _ _ _ _ => u

def Observation.result : Observation → JsVal String
  | .mk _ _ _ _ _ _ r _ _ _ => r

def Observation.interpretation : Observation → JsVal String
  | .mk _ _ _ _ _ _ _ i _ _ => i

def Observation.innerComponents : Observation → List Observation
  | .mk _ _ _ _ _ _ _ _ ic _ => ic

def Observation.normalRange : Observation → Option (ℚ × ℚ)
  | .mk _ _ _ _ _ _ _ _ _ nr => nr

/-- Replace the timestamp field (used for component timestamp inheritance). -/
def Observation.withTimestamp (ts : Option ℤ) : Observation → Observation
  | .mk _ c l d v u r i ic nr => .mk ts c l d v u r i ic nr

/-- Timestamp resolution from `observation.ts` lines 59-61: prefer
`effectiveDateTime`, fall back to `issued`, else null. -/
def rawTimestamp (j : RawObservation) : Option ℤ :=
  match j.effectiveDateTime with
  | some t => some t
  | none =>
    match j.issued with
    | some t => some t
    | none => none

/-- The system check on the LOINC filtering path of `observation.ts`
lines 79-81: `!coding.system || coding.system.indexOf(LOINC) !== -1`
(an absent or empty system passes; otherwise substring containment). -/
def systemLoincOk (cfg : CodingConfig) : Option String → Bool
  | none => true
  | some s => s = "" || strContains s cfg.loincSystem

/-- Code resolution from `observation.ts` lines 62-87: the label starts as
`json.code.text`; if the first coding's system is the BCH microbiology
system, all codings are mapped verbatim to microbiology codes and the
label becomes the first coding's display; otherwise codings are filtered
to recognized LOINC codes. Indexing `coding[0]` on an empty coding array
crashes in JavaScript (`jsTypeError`). Returns (codes, label, display). -/
def resolveCodes (cfg : CodingConfig) :
    Option RawCodeField → Except ObsError (List RCode × Option String × Option String)
  | none => .ok ([], none, none)
  | some cf =>
    match cf.coding with
    | none => .ok ([], cf.text, none)
    | some [] => .error .jsTypeError
    | some (c0 :: rest) =>
      if c0.system = some cfg.bchSystem then
        .ok ((c0 :: rest).map (fun c => RCode.micro c.code), c0.display, c0.display)
      else
        .ok ((c0 :: rest).filterMap
              (fun c =>
                if systemLoincOk cfg c.system && cfg.loincRecognized c.code then
                  some (RCode.lab c.code)
                else none),
              cf.text, none)

/-- Interpretation decoding from `observation.ts` lines 89-101: only the
first coding of the interpretation is examined; if its system is the
recognized value-set URL, an unrecognized code throws
`UnsupportedInterpretation`; codings from other systems are silently
ignored, leaving the interpretation field `undefined`. -/
def resolveInterpretation (cfg : CodingConfig) :
    Option RawInterp → Except ObsError (JsVal String)
  | none => .ok .undefv
  | some it =>
    match it.coding with
    | none => .ok .undefv
    | some [] => .error .jsTypeError
    | some (c0 :: _) =>
      if c0.system = some cfg.interpUrl then
        if cfg.interpHas c0.code then .ok (.val c0.code)
        else .error (.unsupportedInterpretation c0.code)
      else .ok .undefv

/-- The value assignment `json.valueQuantity ? json.valueQuantity : null`. -/
def jsQuantity : Option Quantity → JsVal Quantity
  | some q => .val q
  | none => .nullv

/-- The unit assignment: `this.unit = this.value.unit` when a value exists. -/
def jsUnit : Option Quantity → Option String
  | some q => some q.unit
  | none => none

/-- The result assignment
`json.valueCodeableConcept ? json.valueCodeableConcept.text : null`. -/
def jsResult : Option RawCC → JsVal String
  | none => .nullv
  | some cc =>
    match cc.text with
    | some t => .val t
    | none => .undefv

/-- The reference-range handling (`observation.ts` lines 162-168): a
normal range is recorded only when exactly one range entry exists and it
carries both a low and a high bound. -/
def rangeOf : Option (List RawRangeEntry) → Option (ℚ × ℚ)
  | some [r] =>
    match r.low, r.high with
    | some l, some h => some (l, h)
    | _, _ => none
  | _ => none

/-- The non-recursive tail of the constructor (`observation.ts` lines
114-168): the no-usable-code and no-label guards, the value/result
assignments, the emptiness guard (which compares each slot to `null`
with strict equality), and the reference-range handling. -/
def mkObservationCore (timestamp : Option ℤ) (codes : List RCode)
    (label0 display : Option String) (interpretation : JsVal String)
    (innerComponents : List Observation) (vq : Option Quantity)
    (vcc : Option RawCC) (refR : Option (List RawRangeEntry)) :
    Except ObsError Observation :=
  if codes.isEmpty then .error .noUsableCode
  else if strFalsy label0 then .error .noLabel
  else if (jsQuantity vq).isNullJs && (jsResult vcc).isNullJs
      && interpretation.isNullJs && innerComponents.length == 0 then
    .error .emptyObservation
  else
    .ok (.mk timestamp codes label0 display (jsQuantity vq) (jsUnit vq)
          (jsResult vcc) interpretation innerComponents (rangeOf refR))

mutual

/-- The `Observation` constructor of `observation.ts`, in source order:
timestamp resolution, code resolution, interpretation decoding, recursive
component parsing, then the guard/assignment tail (`mkObservationCore`). -/
def mkObservation (cfg : CodingConfig) : RawObservation → Except ObsError Observation
  | .mk eff iss code interp comp vq vcc refR => do
    let ts := rawTimestamp (.mk eff iss code interp comp vq vcc refR)
    let (codes, label0, display) ← resolveCodes cfg code
    let interpretation ← resolveInterpretation cfg interp
    let innerComponents ← mkComponents cfg ts comp
    mkObservationCore ts codes label0 display interpretation innerComponents
      vq vcc refR

/-- Recursive component parsing (`observation.ts` lines 104-112): each
component is parsed with the same constructor and inherits the parent's
timestamp exactly when it has none of its own; a failing component
aborts the whole parent construction. -/
def mkComponents (cfg : CodingConfig) (parentTs : Option ℤ) :
    List RawObservation → Except ObsError (List Observation)
  | [] => .ok []
  | e :: rest => do
    let o ← mkObservation cfg e
    let o2 := if o.timestamp = none then o.withTimestamp parentTs else o
    let os ← mkComponents cfg parentTs rest
    .ok (o2 :: os)

end

/-- Whether an `Observation` carries a quantity (`this.value` holds a value). -/
def Observation.hasQuantity (o : Observation) : Bool :=
  match o.value with
  | .val _ => true
  | _ => false

/-- Whether an `Observation` carries a qualitative result (`this.result`
holds a value). -/
def Observation.hasQualResult (o : Observation) : Bool :=
  match o.result with
  | .val _ => true
  | _ => false

/-- Modelled from the spec: `ObservationSet.allQualitative` (the
`observation-set.ts` implementation is not among the sources at hand).
Per the data model, it is "true only if every member has a qualitative
result and no quantity". -/
def allQualitative (os : List Observation) : Bool :=
  os.all (fun o => o.hasQualResult && !o.hasQuantity)

/-- Errors thrown synchronously by `Axis.getDataFromFhir`. -/
inductive AxisError where
  | mixedCodeTypes : AxisError
  | mixedValueKind : AxisError
deriving DecidableEq, Repr

/-- Outcome of the all-lab dispatch (`Axis.getDataFromFhir` lines
126-143): a null set list resolves to nothing, an all-qualitative
non-empty list goes down the discrete path, a list where no set is
all-qualitative goes down the continuous path. -/
inductive LabOutcome where
  | noData : LabOutcome
  | discrete : List (List Observation) → LabOutcome
  | continuous : List (List Observation) → LabOutcome

/-- The all-lab dispatch of `Axis.getDataFromFhir` (the callback applied
to the resolved observation-set list, lines 126-143 of the source). -/
def labDispatch : Option (List (List Observation)) → Except AxisError LabOutcome
  | none => .ok .noData
  | some l =>
    if l.length > 0 && l.all (fun s => allQualitative s) then .ok (.discrete l)
    else if l.all (fun s => !allQualitative s) then .ok (.continuous l)
    else .error .mixedValueKind

/-- The chart types from `graph.component.ts`. -/
inductive ChartType where
  | SCATTER : ChartType
  | LINE : ChartType
  | STEP : ChartType
  | MICROBIO : ChartType
deriving DecidableEq, Repr

/-- The coding-system variant of a resource code, mirroring which
`ResourceCode` subclass an `instanceof` check would see. -/
inductive CodeVariant where
  | lab : CodeVariant
  | med : CodeVariant
  | micro : CodeVariant
deriving DecidableEq, Repr

def RCode.variant : RCode → CodeVariant
  | .lab _ => .lab
  | .med _ => .med
  | .micro _ => .micro

/-- Models `code instanceof LOINCCode`. -/
def RCode.isLab (c : RCode) : Bool := c.variant = .lab

/-- Models `code instanceof RxNormCode`. -/
def RCode.isMed (c : RCode) : Bool := c.variant = .med

/-- Models `code instanceof BCHMicrobioCode`. -/
def RCode.isMicro (c : RCode) : Bool := c.variant = .micro

/-- The fetch/construction path `Axis.getDataFromFhir` selects; returning
one of these values is what precedes any network resolution call, so an
`Except.error` result means no fetch is ever issued. -/
inductive FetchPath where
  | medicationSummary : FetchPath
  | medicationDetail : FetchPath
  | microbiology : FetchPath
  | labObservations : FetchPath
deriving DecidableEq, Repr

/-- The synchronous dispatch prefix of `Axis.getDataFromFhir` (lines
98-125): the three `every`-based homogeneity checks, the fail-fast
mixed-type guard, then the path selection (`allRx` consulted first, with
the chart type choosing step summary versus line detail, then
microbiology, and otherwise the all-LOINC observation path — exhaustive
because the guard already ruled out the mixed case). -/
def axisDispatch (codes : List RCode) (ct : ChartType) : Except AxisError FetchPath :=
  let allLoinc := codes.all (fun c => c.isLab)
  let allRx := codes.all (fun c => c.isMed)
  let allBCHMicrobio := codes.all (fun c => c.isMicro)
  if !allLoinc && !allRx && !allBCHMicrobio then .error .mixedCodeTypes
  else if allRx then
    if ct = ChartType.STEP then .ok .medicationSummary else .ok .medicationDetail
  else if allBCHMicrobio then .ok .microbiology
  else .ok .labObservations

/-- An encounter boundary interval. -/
structure Encounter where
  start : ℤ
  endTime : ℤ
deriving DecidableEq, Repr

/-- Encounters ordered by their start timestamp. -/
def encLE (a b : Encounter) : Prop := a.start ≤ b.start

instance : DecidableRel encLE := fun a b =>
  inferInstanceAs (Decidable (a.start ≤ b.start))

instance : IsTotal Encounter encLE := ⟨fun a b => le_total a.start b.start⟩

instance : IsTrans Encounter encLE := ⟨fun _ _ _ h1 h2 => le_trans h1 h2⟩

/-- Encounters sorted into ascending order of start time. -/
def sortEncounters (encs : List Encounter) : List Encounter :=
  List.insertionSort encLE encs

/-- The x-values contributed by encounter boundaries: each encounter's
start then end. -/
def encBoundaryXs : List Encounter → List (Option ℤ)
  | [] => []
  | e :: rest => some e.start :: some e.endTime :: encBoundaryXs rest

/-- The y-values contributed by encounter boundaries: a null per point. -/
def encBoundaryYs : List Encounter → List (Option ℚ)
  | [] => []
  | _ :: rest => none :: none :: encBoundaryYs rest

/-- Modelled from the spec: the shared encounter-boundary augmentation
rule of the Labeled Series Builder (the `labeled-series.ts` implementation
is not among the sources at hand; only its unit tests are). After the base
x/y arrays are built, if the series is non-empty, each encounter's start
and end timestamp is appended to x with a null y, in ascending encounter
order, strictly after the last data point; an empty base series is
returned unchanged. -/
def addEncounterBreaks (xs : List (Option ℤ)) (ys : List (Option ℚ))
    (encs : List Encounter) : List (Option ℤ) × List (Option ℚ) :=
  if xs.isEmpty then (xs, ys)
  else (xs ++ encBoundaryXs (sortEncounters encs),
        ys ++ encBoundaryYs (sortEncounters encs))

/-- The render-ready series shape: aligned x/y lists plus bounds. -/
structure LabeledSeries where
  xValues : List (Option ℤ)
  yValues : List (Option ℚ)
  yNormalBounds : Option (ℚ × ℚ)
  yDisplayBounds : Option (ℚ × ℚ)

/-- Series-construction errors. -/
inductive SeriesError where
  | inconsistentRange : SeriesError
deriving DecidableEq, Repr

/-- The numeric y-value of an observation (its quantity value), if any. -/
def Observation.yValue (o : Observation) : Option ℚ :=
  match o.value with
  | .val q => some q.value
  | _ => none

/-- Modelled from the spec: the normal-bounds combination of the
continuous builder path — the consistent `[low, high]` observed across
members, failing with `InconsistentRange` when two members carry
different non-null ranges. -/
def combineRanges : List Observation → Except SeriesError (Option (ℚ × ℚ))
  | [] => .ok none
  | o :: rest => do
    let r ← combineRanges rest
    match o.normalRange, r with
    | none, r2 => .ok r2
    | some nr, none => .ok (some nr)
    | some nr, some r2 =>
      if nr = r2 then .ok (some nr) else .error .inconsistentRange

/-- The interval spanned by a list of rationals: `[min, max]`, or none
for the empty list. -/
def boundsOf : List ℚ → Option (ℚ × ℚ)
  | [] => none
  | c :: cs => some (cs.foldl min c, cs.foldl max c)

/-- Modelled from the spec: `LabeledSeries.fromObservationSet`
(continuous path) — x is each observation's timestamp in original order,
y is its quantity value or null, normal bounds are the consistent member
range, display bounds cover all finite y-values together with any normal
bounds, and encounter boundaries are appended by the shared rule. -/
def LabeledSeries.fromObservationSet (os : List Observation)
    (encs : List Encounter) : Except SeriesError LabeledSeries := do
  let nb ← combineRanges os
  let baseXs := os.map (fun o => o.timestamp)
  let baseYs := os.map (fun o => o.yValue)
  let xy := addEncounterBreaks baseXs baseYs encs
  let finite := os.filterMap (fun o => o.yValue)
  let candidates := match nb with
    | none => finite
    | some (lo, hi) => finite ++ [lo, hi]
  .ok ⟨xy.1, xy.2, nb, boundsOf candidates⟩

/-- A medication administration: timestamp and dose. -/
structure MedicationAdministration where
  timestamp : ℤ
  dose : ℚ
deriving DecidableEq, Repr

/-- A medication order, reduced to its resolved administration list
(the aggregate fields play no role in the claims below). -/
structure MedicationOrder where
  administrations : List MedicationAdministration
deriving DecidableEq, Repr

/-- Administrations ordered by timestamp. -/
def admLE (a b : MedicationAdministration) : Prop := a.timestamp ≤ b.timestamp

instance : DecidableRel admLE := fun a b =>
  inferInstanceAs (Decidable (a.timestamp ≤ b.timestamp))

instance : IsTotal MedicationAdministration admLE := ⟨fun a b => le_total a.timestamp b.timestamp⟩

instance : IsTrans MedicationAdministration admLE := ⟨fun _ _ _ h1 h2 => le_trans h1 h2⟩

/-- The concatenation of all member orders' administrations. -/
def allAdministrations : List MedicationOrder → List MedicationAdministration
  | [] => []
  | o :: rest => o.administrations ++ allAdministrations rest

/-- Modelled from the spec: the merge step of
`LabeledSeries.fromMedicationOrderSet` — all member orders'
administrations combined into one list sorted by timestamp. -/
def mergedAdministrations (orders : List MedicationOrder) :
    List MedicationAdministration :=
  List.insertionSort admLE (allAdministrations orders)

/-- Modelled from the spec: `LabeledSeries.fromMedicationOrderSet` —
the merged, timestamp-sorted administrations become the series points,
display bounds span the aggregate's doses, and encounter boundaries are
appended by the shared rule. -/
def LabeledSeries.fromMedicationOrderSet (orders : List MedicationOrder)
    (encs : List Encounter) : LabeledSeries :=
  let pts := mergedAdministrations orders
  let xy := addEncounterBreaks (pts.map (fun a => some a.timestamp))
    (pts.map (fun a => some a.dose)) encs
  ⟨xy.1, xy.2, none, boundsOf (pts.map (fun a => a.dose))⟩

mutual

/-- Decidable record validity mirroring the constructor's guard structure:
code resolution succeeds with a non-empty code list and a truthy label,
the interpretation block does not throw, and every nested component is
itself valid. -/
def validObs (cfg : CodingConfig) : RawObservation → Bool
  | .mk _ _ code interp comp _ _ _ =>
    (match resolveCodes cfg code with
     | .error _ => false
     | .ok (codes, label0, _) => !codes.isEmpty && !strFalsy label0) &&
    (match resolveInterpretation cfg interp with
     | .error _ => false
     | .ok _ => true) &&
    validComponents cfg comp

def validComponents (cfg : CodingConfig) : List RawObservation → Bool
  | [] => true
  | e :: rest => validObs cfg e && validComponents cfg rest

end

def cfg0 : CodingConfig where
  bchSystem := "http://custom/bch-microbiology"
  loincSystem := "http://loinc.org"
  loincRecognized := fun s => s = "718-7" || s = "787-2"
  interpUrl := "http://hl7.org/fhir/ValueSet/observation-interpretation"
  interpHas := fun s => s = "N" || s = "H" || s = "L"

def rNoContent : RawObservation :=
  .mk none none
    (some ⟨some "Hemoglobin", some [⟨some "http://loinc.org", "718-7", none⟩]⟩)
    none [] none none none

def oNoContent : Observation :=
  .mk none [RCode.lab "718-7"] (some "Hemoglobin") none .nullv none .nullv
    .undefv [] none

def qualObs : Observation :=
  .mk (some 0) [RCode.lab "600-7"] (some "Color") none .nullv none
    (.val "Yellow") .undefv [] none

def quantObs : Observation :=
  .mk (some 1) [RCode.lab "718-7"] (some "Hemoglobin") none
    (.val ⟨7, "g/dL"⟩) (some "g/dL") .nullv .undefv [] none

def mixedSet : List Observation := [qualObs, quantObs]

def obsWithRange (v : ℚ) (t : ℤ) : Observation :=
  .mk (some t) [RCode.lab "718-7"] (some "Hemoglobin") none
    (.val ⟨v, "g/dL"⟩) (some "g/dL") .nullv .undefv [] (some (1, 90))

def osC4 : List Observation := [obsWithRange 1 0, obsWithRange 10 1, obsWithRange 100 2]

def sC4 : LabeledSeries :=
  ⟨[some 0, some 1, some 2], [some 1, some 10, some 100], some (1, 90),
    some (1, 100)⟩

def codingsC5 : List RawCoding :=
  [⟨some "http://loinc.org", "718-7", some "Hgb display"⟩,
   ⟨some "http://custom/bch-microbiology", "MICRO-1", some "Micro display"⟩]

def rC5 : RawObservation :=
  .mk none none (some ⟨some "Hemoglobin", some codingsC5⟩) none []
    (some ⟨7, "g/dL"⟩) none none

def oC5 : Observation :=
  .mk none [RCode.lab "718-7"] (some "Hemoglobin") none (.val ⟨7, "g/dL"⟩)
    (some "g/dL") .nullv .undefv [] none

def rC5bch : RawObservation :=
  .mk none none
    (some ⟨some "irrelevant",
      some [⟨some "http://custom/bch-microbiology", "MICRO-1", some "Micro display"⟩]⟩)
    none [] (some ⟨7, "g/dL"⟩) none none

def oC5bch : Observation :=
  .mk none [RCode.micro "MICRO-1"] (some "Micro display") (some "Micro display")
    (.val ⟨7, "g/dL"⟩) (some "g/dL") .nullv .undefv [] none

def rC5none : RawObservation :=
  .mk none none (some ⟨some "Something", some [⟨some "http://other", "XX", none⟩]⟩)
    none [] (some ⟨7, "g/dL"⟩) none none

def rC6 : RawObservation :=
  .mk (some 5) none
    (some ⟨some "Hemoglobin", some [⟨some "http://loinc.org", "718-7", none⟩]⟩)
    none [] (some ⟨7, "g/dL"⟩) none (some [⟨some 1, some 90⟩])

def rC9bad : RawObservation :=
  .mk none none
    (some ⟨some "Hemoglobin", some [⟨some "http://loinc.org", "718-7", none⟩]⟩)
    (some ⟨some [⟨some "http://hl7.org/fhir/ValueSet/observation-interpretation",
      "WEIRD", none⟩]⟩)
    [] (some ⟨7, "g/dL"⟩) none none

def rC9other : RawObservation :=
  .mk none none
    (some ⟨some "Hemoglobin", some [⟨some "http://loinc.org", "718-7", none⟩]⟩)
    (some ⟨some [⟨some "http://other-system", "N", none⟩]⟩)
    [] (some ⟨7, "g/dL"⟩) none none

def oC9 : Observation :=
  .mk none [RCode.lab "718-7"] (some "Hemoglobin") none (.val ⟨7, "g/dL"⟩)
    (some "g/dL") .nullv .undefv [] none

/-- The interpretation slot produced by `resolveInterpretation` is never the
JavaScript `null`: it is either `undefined` or a decoded value. -/
theorem resolveInterpretation_ok_not_null (cfg : CodingConfig)
    (i : Option RawInterp) (v : JsVal String)
    (h : resolveInterpretation cfg i = .ok v) : v.isNullJs = false := by
  cases i with
  | none =>
    simp [resolveInterpretation] at h
    subst h
    rfl
  | some it =>
    unfold resolveInterpretation at h
    rcases it with ⟨cd⟩
    rcases cd with _ | ⟨_ | ⟨c0, rest⟩⟩ <;> simp_all
    · subst h; rfl
    · split at h
      · split at h
        · injection h with h2; subst h2; rfl
        · exact absurd h (by simp)
      · injection h with h2; subst h2; rfl

theorem mkObservationCore_ok_of {codes : List RCode} {label0 : Option String}
    {interpretation : JsVal String}
    (ts : Option ℤ) (display : Option String)
    (inner : List Observation) (vq : Option Quantity) (vcc : Option RawCC)
    (refR : Option (List RawRangeEntry))
    (h1 : codes.isEmpty = false) (h2 : strFalsy label0 = false)
    (h3 : interpretation.isNullJs = false) :
    mkObservationCore ts codes label0 display interpretation inner vq vcc refR =
      .ok (.mk ts codes label0 display (jsQuantity vq) (jsUnit vq)
        (jsResult vcc) interpretation inner (rangeOf refR)) := by
  simp [mkObservationCore, h1, h2, h3]

theorem mkObservationCore_ne_empty {interpretation : JsVal String}
    (ts : Option ℤ) (codes : List RCode) (label0 display : Option String)
    (inner : List Observation) (vq : Option Quantity) (vcc : Option RawCC)
    (refR : Option (List RawRangeEntry))
    (h3 : interpretation.isNullJs = false) :
    mkObservationCore ts codes label0 display interpretation inner vq vcc refR ≠
      .error .emptyObservation := by
  unfold mkObservationCore
  split
  · simp
  · split
    · simp
    · rw [h3]
      simp

theorem mkObservationCore_ok_inv {ts codes label0 display interpretation inner
    vq vcc refR o}
    (h : mkObservationCore ts codes label0 display interpretation inner vq vcc
      refR = .ok o) :
    o = .mk ts codes label0 display (jsQuantity vq) (jsUnit vq)
      (jsResult vcc) interpretation inner (rangeOf refR) ∧
    codes.isEmpty = false ∧ strFalsy label0 = false := by
  unfold mkObservationCore at h
  split at h
  · exact absurd h (by simp)
  · split at h
    · exact absurd h (by simp)
    · split at h
      · exact absurd h (by simp)
      · injection h with h2
        subst h2
        constructor
        · rfl
        · constructor <;> simp_all


theorem mkObservation_ok_inv (cfg : CodingConfig) (j : RawObservation)
    (o : Observation) (h : mkObservation cfg j = .ok o) :
    ∃ codes label0 display v inner,
      resolveCodes cfg j.code = .ok (codes, label0, display) ∧
      resolveInterpretation cfg j.interpretation = .ok v ∧
      mkComponents cfg (rawTimestamp j) j.component = .ok inner ∧
      o = .mk (rawTimestamp j) codes label0 display
        (jsQuantity j.valueQuantity) (jsUnit j.valueQuantity)
        (jsResult j.valueCodeableConcept) v inner
        (rangeOf j.referenceRange) := by
  rcases j with ⟨eff, iss, code, interp, comp, vq, vcc, refR⟩
  rw [mkObservation] at h
  rcases hrc : resolveCodes cfg code with e | ⟨codes, label0, display⟩
  · rw [hrc] at h
    exact absurd h (by simp [Bind.bind, Except.bind])
  · rw [hrc] at h
    rcases hri : resolveInterpretation cfg interp with e | v
    · rw [hri] at h
      exact absurd h (by simp [Bind.bind, Except.bind])
    · rw [hri] at h
      rcases hmc : mkComponents cfg
          (rawTimestamp (.mk eff iss code interp comp vq vcc refR)) comp with
          e | inner
      · rw [hmc] at h
        exact absurd h (by simp [Bind.bind, Except.bind])
      · rw [hmc] at h
        simp only [Bind.bind, Except.bind] at h
        obtain ⟨ho, -, -⟩ := mkObservationCore_ok_inv h
        exact ⟨codes, label0, display, v, inner, hrc, hri, hmc, ho⟩

theorem resolveCodes_error_eq (cfg : CodingConfig) (c : Option RawCodeField)
    (e : ObsError) (h : resolveCodes cfg c = .error e) : e = .jsTypeError := by
  rcases c with _ | ⟨t, cd⟩
  · simp [resolveCodes] at h
  · rcases cd with _ | ⟨_ | ⟨c0, rest⟩⟩
    · simp [resolveCodes] at h
    · simp [resolveCodes] at h
      exact h.symm
    · simp only [resolveCodes] at h
      split at h <;> simp_all

theorem resolveInterpretation_error_eq (cfg : CodingConfig)
    (i : Option RawInterp) (e : ObsError)
    (h : resolveInterpretation cfg i = .error e) :
    e ≠ .emptyObservation := by
  rcases i with _ | ⟨cd⟩
  · simp [resolveInterpretation] at h
  · rcases cd with _ | ⟨_ | ⟨c0, rest⟩⟩
    · simp [resolveInterpretation] at h
    · simp only [resolveInterpretation] at h
      injection h with h2
      subst h2
      simp
    · simp only [resolveInterpretation] at h
      split at h
      · split at h
        · exact absurd h (by simp)
        · injection h with h2
          subst h2
          simp
      · exact absurd h (by simp)

mutual

theorem mkObservation_ne_empty (cfg : CodingConfig) (j : RawObservation) :
    mkObservation cfg j ≠ .error .emptyObservation := by
  rcases j with ⟨eff, iss, code, interp, comp, vq, vcc, refR⟩
  rw [mkObservation]
  rcases hrc : resolveCodes cfg code with e | ⟨codes, label0, display⟩
  · intro hc
    simp [Bind.bind, Except.bind] at hc
    exact absurd (resolveCodes_error_eq cfg code e hrc) (by simp [hc])
  · rcases hri : resolveInterpretation cfg interp with e | v
    · intro hc
      simp [Bind.bind, Except.bind] at hc
      exact resolveInterpretation_error_eq cfg interp e hri hc
    · rcases hmc : mkComponents cfg
          (rawTimestamp (.mk eff iss code interp comp vq vcc refR)) comp with
          e | inner
      · intro hc
        simp [Bind.bind, Except.bind] at hc
        have hne := mkComponents_ne_empty cfg
          (rawTimestamp (.mk eff iss code interp comp vq vcc refR)) comp
        rw [hmc] at hne
        exact hne (by rw [hc])
      · simp only [Bind.bind, Except.bind]
        exact mkObservationCore_ne_empty _ _ _ _ _ _ _ _
          (resolveInterpretation_ok_not_null cfg interp v hri)

theorem mkComponents_ne_empty (cfg : CodingConfig) (ts : Option ℤ)
    (l : List RawObservation) :
    mkComponents cfg ts l ≠ .error .emptyObservation := by
  match l with
  | [] => simp [mkComponents]
  | e :: rest =>
    rw [mkComponents]
    rcases h1 : mkObservation cfg e with er | o
    · intro hc
      simp [Bind.bind, Except.bind] at hc
      have hne := mkObservation_ne_empty cfg e
      rw [h1] at hne
      exact hne (by rw [hc])
    · rcases h2 : mkComponents cfg ts rest with er | os
      · intro hc
        simp [Bind.bind, Except.bind] at hc
        have hne := mkComponents_ne_empty cfg ts rest
        rw [h2] at hne
        exact hne (by rw [hc])
      · simp [Bind.bind, Except.bind]

end


theorem mkObservation_eq_core (cfg : CodingConfig) (eff iss : Option ℤ)
    (code : Option RawCodeField) (interp : Option RawInterp)
    (comp : List RawObservation) (vq : Option Quantity) (vcc : Option RawCC)
    (refR : Option (List RawRangeEntry))
    {codes : List RCode} {label0 display : Option String} {v : JsVal String}
    {inner : List Observation}
    (hrc : resolveCodes cfg code = .ok (codes, label0, display))
    (hri : resolveInterpretation cfg interp = .ok v)
    (hmc : mkComponents cfg
      (rawTimestamp (.mk eff iss code interp comp vq vcc refR)) comp = .ok inner) :
    mkObservation cfg (.mk eff iss code interp comp vq vcc refR) =
      mkObservationCore (rawTimestamp (.mk eff iss code interp comp vq vcc refR))
        codes label0 display v inner vq vcc refR := by
  rw [mkObservation, hrc, hri, hmc]
  simp [Bind.bind, Except.bind]

theorem mkObservation_interp_error (cfg : CodingConfig) (eff iss : Option ℤ)
    (code : Option RawCodeField) (interp : Option RawInterp)
    (comp : List RawObservation) (vq : Option Quantity) (vcc : Option RawCC)
    (refR : Option (List RawRangeEntry))
    {t : List RCode × Option String × Option String} {e : ObsError}
    (hrc : resolveCodes cfg code = .ok t)
    (hri : resolveInterpretation cfg interp = .error e) :
    mkObservation cfg (.mk eff iss code interp comp vq vcc refR) = .error e := by
  rw [mkObservation, hrc, hri]
  rcases t with ⟨a, b, c⟩
  simp [Bind.bind, Except.bind]

mutual

theorem mkObservation_ok_of_valid (cfg : CodingConfig) (j : RawObservation)
    (h : validObs cfg j = true) : ∃ o, mkObservation cfg j = .ok o := by
  rcases j with ⟨eff, iss, code, interp, comp, vq, vcc, refR⟩
  rw [validObs, Bool.and_eq_true, Bool.and_eq_true] at h
  obtain ⟨⟨h1, h2⟩, h3⟩ := h
  rcases hrc : resolveCodes cfg code with e | ⟨codes, label0, display⟩
  · rw [hrc] at h1
    simp at h1
  · rw [hrc] at h1
    simp only [Bool.and_eq_true, Bool.not_eq_true'] at h1
    rcases hri : resolveInterpretation cfg interp with e | v
    · rw [hri] at h2
      simp at h2
    · obtain ⟨inner, hmc⟩ := mkComponents_ok_of_valid cfg
        (rawTimestamp (.mk eff iss code interp comp vq vcc refR)) comp h3
      rw [mkObservation_eq_core cfg eff iss code interp comp vq vcc refR hrc hri hmc]
      rw [mkObservationCore_ok_of _ _ _ _ _ _ h1.1 h1.2
        (resolveInterpretation_ok_not_null cfg interp v hri)]
      exact ⟨_, rfl⟩

theorem mkComponents_ok_of_valid (cfg : CodingConfig) (ts : Option ℤ)
    (l : List RawObservation) (h : validComponents cfg l = true) :
    ∃ os, mkComponents cfg ts l = .ok os := by
  match l with
  | [] => exact ⟨[], rfl⟩
  | e :: rest =>
    rw [validComponents, Bool.and_eq_true] at h
    obtain ⟨o, h1⟩ := mkObservation_ok_of_valid cfg e h.1
    obtain ⟨os, h2⟩ := mkComponents_ok_of_valid cfg ts rest h.2
    rw [mkComponents, h1, h2]
    exact ⟨(if o.timestamp = none then o.withTimestamp ts else o) :: os,
      by simp [Bind.bind, Except.bind]⟩

end

theorem rangeOf_eq_some_iff (rr : Option (List RawRangeEntry)) (lo hi : ℚ) :
    rangeOf rr = some (lo, hi) ↔ rr = some [⟨some lo, some hi⟩] := by
  rcases rr with _ | ⟨_ | ⟨r, _ | ⟨r2, rest⟩⟩⟩
  · simp [rangeOf]
  · simp [rangeOf]
  · rcases r with ⟨rlo, rhi⟩
    rcases rlo with _ | a <;> rcases rhi with _ | b <;>
      simp [rangeOf, RawRangeEntry.mk.injEq]
  · simp [rangeOf]

theorem resolveCodes_bch (cfg : CodingConfig) (txt : Option String)
    (c0 : RawCoding) (rest : List RawCoding)
    (h : c0.system = some cfg.bchSystem) :
    resolveCodes cfg (some ⟨txt, some (c0 :: rest)⟩) =
      .ok ((c0 :: rest).map (fun c => RCode.micro c.code), c0.display,
        c0.display) := by
  simp [resolveCodes, h]

theorem resolveCodes_loinc (cfg : CodingConfig) (txt : Option String)
    (c0 : RawCoding) (rest : List RawCoding)
    (h : ¬ c0.system = some cfg.bchSystem) :
    resolveCodes cfg (some ⟨txt, some (c0 :: rest)⟩) =
      .ok ((c0 :: rest).filterMap
        (fun c =>
          if systemLoincOk cfg c.system && cfg.loincRecognized c.code then
            some (RCode.lab c.code)
          else none), txt, none) := by
  simp [resolveCodes, h]

theorem foldl_min_le_init (t : List ℚ) (c : ℚ) : t.foldl min c ≤ c := by
  induction t generalizing c with
  | nil => exact le_refl c
  | cons a t ih =>
    rw [List.foldl_cons]
    exact le_trans (ih (min c a)) (min_le_left c a)

theorem foldl_min_le_mem (t : List ℚ) (c v : ℚ) (hv : v ∈ t) :
    t.foldl min c ≤ v := by
  induction t generalizing c with
  | nil => cases hv
  | cons a t ih =>
    rw [List.foldl_cons]
    rcases List.mem_cons.mp hv with rfl | h2
    · exact le_trans (foldl_min_le_init t (min c v)) (min_le_right c v)
    · exact ih (min c a) h2

theorem le_foldl_max_init (t : List ℚ) (c : ℚ) : c ≤ t.foldl max c := by
  induction t generalizing c with
  | nil => exact le_refl c
  | cons a t ih =>
    rw [List.foldl_cons]
    exact le_trans (le_max_left c a) (ih (max c a))

theorem le_foldl_max_mem (t : List ℚ) (c v : ℚ) (hv : v ∈ t) :
    v ≤ t.foldl max c := by
  induction t generalizing c with
  | nil => cases hv
  | cons a t ih =>
    rw [List.foldl_cons]
    rcases List.mem_cons.mp hv with rfl | h2
    · exact le_trans (le_max_right c v) (le_foldl_max_init t (max c v))
    · exact ih (max c a) h2

theorem boundsOf_contains (l : List ℚ) (v : ℚ) (hv : v ∈ l) :
    ∃ lo hi, boundsOf l = some (lo, hi) ∧ lo ≤ v ∧ v ≤ hi := by
  cases l with
  | nil => cases hv
  | cons c cs =>
    refine ⟨cs.foldl min c, cs.foldl max c, rfl, ?_, ?_⟩
    · rcases List.mem_cons.mp hv with rfl | h2
      · exact foldl_min_le_init cs v
      · exact foldl_min_le_mem cs c v h2
    · rcases List.mem_cons.mp hv with rfl | h2
      · exact le_foldl_max_init cs v
      · exact le_foldl_max_mem cs c v h2

theorem encBoundaryXs_length (l : List Encounter) :
    (encBoundaryXs l).length = 2 * l.length := by
  induction l with
  | nil => rfl
  | cons e rest ih =>
    simp [encBoundaryXs, ih]
    ring

theorem encBoundaryYs_length (l : List Encounter) :
    (encBoundaryYs l).length = 2 * l.length := by
  induction l with
  | nil => rfl
  | cons e rest ih =>
    simp [encBoundaryYs, ih]
    ring

theorem encBoundaryYs_all_none (l : List Encounter) (y : Option ℚ)
    (hy : y ∈ encBoundaryYs l) : y = none := by
  induction l with
  | nil => cases hy
  | cons e rest ih =>
    rcases hy with _ | ⟨_, _ | ⟨_, h⟩⟩
    · rfl
    · rfl
    · exact ih h

theorem sortEncounters_perm (l : List Encounter) : List.Perm (sortEncounters l) l :=
  List.perm_insertionSort encLE l

theorem sortEncounters_sorted (l : List Encounter) :
    List.Sorted encLE (sortEncounters l) :=
  List.sorted_insertionSort encLE l

theorem addEncounterBreaks_nil (xs : List (Option ℤ)) (ys : List (Option ℚ)) :
    addEncounterBreaks xs ys [] = (xs, ys) := by
  unfold addEncounterBreaks
  split
  · rfl
  · simp [sortEncounters, List.insertionSort, encBoundaryXs, encBoundaryYs]

theorem fromObservationSet_ok_inv (os : List Observation)
    (encs : List Encounter) (s : LabeledSeries)
    (h : LabeledSeries.fromObservationSet os encs = .ok s) :
    ∃ nb, combineRanges os = .ok nb ∧
      s = ⟨(addEncounterBreaks (os.map (fun o => o.timestamp))
              (os.map (fun o => o.yValue)) encs).1,
           (addEncounterBreaks (os.map (fun o => o.timestamp))
              (os.map (fun o => o.yValue)) encs).2,
           nb,
           boundsOf (match nb with
             | none => os.filterMap (fun o => o.yValue)
             | some (lo, hi) => os.filterMap (fun o => o.yValue) ++ [lo, hi])⟩ := by
  unfold LabeledSeries.fromObservationSet at h
  rcases hcb : combineRanges os with e | nb
  · rw [hcb] at h
    exact absurd h (by simp [Bind.bind, Except.bind])
  · rw [hcb] at h
    simp only [Bind.bind, Except.bind] at h
    injection h with h2
    exact ⟨nb, rfl, h2.symm⟩

theorem labDispatch_error_iff (l : List (List Observation)) :
    labDispatch (some l) = .error .mixedValueKind ↔
      (∃ a ∈ l, allQualitative a = true) ∧
      (∃ b ∈ l, allQualitative b = false) := by
  simp only [labDispatch]
  split
  next hcond =>
    rw [Bool.and_eq_true, List.all_eq_true] at hcond
    constructor
    · intro hc
      cases hc
    · rintro ⟨-, ⟨b, hb, hbf⟩⟩
      rw [hcond.2 b hb] at hbf
      cases hbf
  next hcond =>
    split
    next hall =>
      rw [List.all_eq_true] at hall
      constructor
      · intro hc
        cases hc
      · rintro ⟨⟨a, ha, hat⟩, -⟩
        have := hall a ha
        rw [hat] at this
        cases this
    next hall =>
      rw [Bool.and_eq_true, List.all_eq_true] at hcond
      constructor
      · intro _
        constructor
        · by_contra hnone
          push_neg at hnone
          apply hall
          rw [List.all_eq_true]
          intro s hs
          have := hnone s hs
          simp only [Bool.not_eq_true] at this ⊢
          rw [this]
          rfl
        · by_contra hnone
          push_neg at hnone
          apply hcond
          constructor
          · rcases l with _ | ⟨s, rest⟩
            · exfalso
              apply hall
              rfl
            · simp
          · intro s hs
            have := hnone s hs
            simp only [Bool.not_eq_false] at this
            exact this
      · intro _
        rfl

theorem labDispatch_discrete (l : List (List Observation)) (hne : l ≠ [])
    (hall : ∀ s ∈ l, allQualitative s = true) :
    labDispatch (some l) = .ok (.discrete l) := by
  simp only [labDispatch]
  have hcond : (decide (l.length > 0) && l.all fun s => allQualitative s) = true := by
    rw [Bool.and_eq_true, List.all_eq_true]
    refine ⟨by simpa using List.length_pos.mpr hne, hall⟩
  rw [if_pos hcond]

theorem labDispatch_continuous (l : List (List Observation))
    (hall : ∀ s ∈ l, allQualitative s = false) :
    labDispatch (some l) = .ok (.continuous l) := by
  simp only [labDispatch]
  rcases l with _ | ⟨s0, rest⟩
  · rfl
  · have h1 : ((s0 :: rest).all fun s => allQualitative s) = false := by
      rw [List.all_eq_false]
      exact ⟨s0, List.mem_cons_self s0 rest, by rw [hall s0 (List.mem_cons_self s0 rest)]; simp⟩
    have h2 : ((s0 :: rest).all fun s => !allQualitative s) = true := by
      rw [List.all_eq_true]
      intro s hs
      rw [hall s hs]
      rfl
    simp [h1, h2]

theorem variant_all_false (codes : List RCode) (a b : RCode) (ha : a ∈ codes)
    (hb : b ∈ codes) (hne : a.variant ≠ b.variant) (t : CodeVariant) :
    (codes.all fun c => decide (c.variant = t)) = false := by
  by_contra hx
  rw [Bool.not_eq_false, List.all_eq_true] at hx
  have ha2 := of_decide_eq_true (hx a ha)
  have hb2 := of_decide_eq_true (hx b hb)
  exact hne (ha2.trans hb2.symm)

theorem axisDispatch_mixed (codes : List RCode) (ct : ChartType) (a b : RCode)
    (ha : a ∈ codes) (hb : b ∈ codes) (hne : a.variant ≠ b.variant) :
    axisDispatch codes ct = .error .mixedCodeTypes := by
  unfold axisDispatch
  have hL := variant_all_false codes a b ha hb hne .lab
  have hM := variant_all_false codes a b ha hb hne .med
  have hB := variant_all_false codes a b ha hb hne .micro
  simp only [RCode.isLab, RCode.isMed, RCode.isMicro]
  simp [hL, hM, hB]

theorem axisDispatch_empty (ct : ChartType) :
    axisDispatch [] ct =
      .ok (if ct = ChartType.STEP then .medicationSummary
           else .medicationDetail) := by
  cases ct <;> rfl

theorem allAdministrations_pair (o1 o2 : MedicationOrder) :
    allAdministrations [o1, o2] = o1.administrations ++ o2.administrations := by
  simp [allAdministrations]

theorem mergedAdministrations_perm (orders : List MedicationOrder) :
    List.Perm (mergedAdministrations orders) (allAdministrations orders) :=
  List.perm_insertionSort admLE (allAdministrations orders)

theorem mergedAdministrations_sorted (orders : List MedicationOrder) :
    List.Sorted admLE (mergedAdministrations orders) :=
  List.sorted_insertionSort admLE (allAdministrations orders)

theorem fromMedicationOrderSet_noEnc (orders : List MedicationOrder) :
    LabeledSeries.fromMedicationOrderSet orders [] =
      ⟨(mergedAdministrations orders).map (fun a => some a.timestamp),
       (mergedAdministrations orders).map (fun a => some a.dose),
       none,
       boundsOf ((mergedAdministrations orders).map (fun a => a.dose))⟩ := by
  simp only [LabeledSeries.fromMedicationOrderSet, addEncounterBreaks_nil]

theorem addEncounterBreaks_snd_mem (xs : List (Option ℤ)) (ys : List (Option ℚ))
    (encs : List Encounter) (y : Option ℚ)
    (hy : y ∈ (addEncounterBreaks xs ys encs).2) : y ∈ ys ∨ y = none := by
  by_cases hc : xs.isEmpty
  · simp [addEncounterBreaks, hc] at hy
    exact Or.inl hy
  · simp only [addEncounterBreaks, hc, Bool.false_eq_true, if_false] at hy
    rcases List.mem_append.mp hy with h2 | h2
    · exact Or.inl h2
    · exact Or.inr (encBoundaryYs_all_none _ y h2)

/-- C1: the spec claims a record with a recognized code and label but no
quantity, no qualitative result, no interpretation and no components fails
with `EmptyObservation`. In the source the guard compares the absent
(undefined) interpretation to `null` with strict equality, so it can never
fire: no input at all produces `EmptyObservation`, and the concrete record
described by the claim is parsed successfully. -/
theorem c1_empty_observation_guard_dead :
    (∀ (cfg : CodingConfig) (j : RawObservation),
      mkObservation cfg j ≠ .error .emptyObservation) ∧
    rNoContent.valueQuantity = none ∧
    rNoContent.valueCodeableConcept = none ∧
    rNoContent.interpretation = none ∧
    rNoContent.component = [] ∧
    mkObservation cfg0 rNoContent = .ok oNoContent :=
  ⟨mkObservation_ne_empty, rfl, rfl, rfl, rfl, rfl⟩

/-- C2 counterexample: an observation set that internally mixes a
qualitative and a quantitative observation has `allQualitative = false`,
so the dispatch routes it down the continuous path instead of failing
with `MixedValueKind` as the claim states. -/
theorem c2_internal_mixture_not_rejected :
    Observation.hasQualResult qualObs = true ∧
    Observation.hasQuantity qualObs = false ∧
    Observation.hasQuantity quantObs = true ∧
    allQualitative mixedSet = false ∧
    labDispatch (some [mixedSet]) = .ok (.continuous [mixedSet]) ∧
    labDispatch (some [mixedSet]) ≠ .error .mixedValueKind :=
  ⟨rfl, rfl, rfl, rfl, rfl, fun h => nomatch h⟩

/-- C2 (amended): on the all-lab dispatch path, a non-empty list whose
sets are all all-qualitative goes down the discrete path, a list where no
set is all-qualitative goes down the continuous path, and the
`MixedValueKind` error is raised exactly when the list contains both an
all-qualitative set and a non-all-qualitative set (an internally mixed
set counts as non-all-qualitative and is not itself rejected). -/
theorem c2_lab_dispatch_amended (l : List (List Observation)) :
    (l ≠ [] → (∀ s ∈ l, allQualitative s = true) →
      labDispatch (some l) = .ok (.discrete l)) ∧
    ((∀ s ∈ l, allQualitative s = false) →
      labDispatch (some l) = .ok (.continuous l)) ∧
    (labDispatch (some l) = .error .mixedValueKind ↔
      (∃ a ∈ l, allQualitative a = true) ∧
      (∃ b ∈ l, allQualitative b = false)) :=
  ⟨fun h1 h2 => labDispatch_discrete l h1 h2,
   fun h => labDispatch_continuous l h,
   labDispatch_error_iff l⟩

/-- C2 witness: the amended dispatch behaviour at concrete inputs — a
singleton all-qualitative list is dispatched discrete, a singleton
quantitative list continuous, and a list mixing the two kinds of sets
fails with `MixedValueKind`. -/
theorem c2_lab_dispatch_amended_witness :
    labDispatch (some [[qualObs]]) = .ok (.discrete [[qualObs]]) ∧
    labDispatch (some [[quantObs]]) = .ok (.continuous [[quantObs]]) ∧
    labDispatch (some [[qualObs], [quantObs]]) = .error .mixedValueKind :=
  ⟨(c2_lab_dispatch_amended [[qualObs]]).1 (by simp)
    (by intro s hs; rw [List.mem_singleton] at hs; subst hs; rfl),
   (c2_lab_dispatch_amended [[quantObs]]).2.1
    (by intro s hs; rw [List.mem_singleton] at hs; subst hs; rfl),
   (c2_lab_dispatch_amended [[qualObs], [quantObs]]).2.2.mpr
    ⟨⟨[qualObs], by simp, rfl⟩, ⟨[quantObs], by simp, rfl⟩⟩⟩

/-- C3: the shared encounter-boundary augmentation rule (modelled from
the spec) — on a non-empty base series the result has base length plus
two points per encounter, the appended y-values are all null, the
appended x-values are the encounters' start/end pairs in ascending
encounter order, strictly after the base points; an empty base series is
returned unchanged. -/
theorem c3_encounter_augmentation (xs : List (Option ℤ))
    (ys : List (Option ℚ)) (encs : List Encounter) :
    (xs ≠ [] →
      (addEncounterBreaks xs ys encs).1.length = xs.length + 2 * encs.length ∧
      (addEncounterBreaks xs ys encs).2.length = ys.length + 2 * encs.length ∧
      (addEncounterBreaks xs ys encs).1 =
        xs ++ encBoundaryXs (sortEncounters encs) ∧
      (addEncounterBreaks xs ys encs).2 =
        ys ++ encBoundaryYs (sortEncounters encs) ∧
      (∀ y ∈ encBoundaryYs (sortEncounters encs), y = none) ∧
      List.Perm (sortEncounters encs) encs ∧
      List.Sorted encLE (sortEncounters encs)) ∧
    (xs = [] → addEncounterBreaks xs ys encs = (xs, ys)) := by
  constructor
  · intro hne
    have hx : xs.isEmpty = false := by
      cases xs with
      | nil => exact absurd rfl hne
      | cons a t => rfl
    refine ⟨?_, ?_, ?_, ?_, fun y hy => encBoundaryYs_all_none _ y hy,
      sortEncounters_perm encs, sortEncounters_sorted encs⟩
    · simp [addEncounterBreaks, hx, encBoundaryXs_length,
        (sortEncounters_perm encs).length_eq]
    · simp [addEncounterBreaks, hx, encBoundaryYs_length,
        (sortEncounters_perm encs).length_eq]
    · simp [addEncounterBreaks, hx]
    · simp [addEncounterBreaks, hx]
  · intro he
    subst he
    rfl

/-- C3 witness: the augmentation rule at concrete inputs — a one-point
base series with one encounter gains exactly two trailing null points,
and an empty base series with an encounter supplied stays empty. -/
theorem c3_encounter_augmentation_witness :
    (addEncounterBreaks [some 3] [some (1 : ℚ)] [⟨0, 5⟩]).1.length =
      1 + 2 * 1 ∧
    addEncounterBreaks ([] : List (Option ℤ)) ([] : List (Option ℚ))
      [⟨0, 5⟩] = ([], []) :=
  ⟨((c3_encounter_augmentation [some 3] [some 1] [⟨0, 5⟩]).1 (by simp)).1,
   (c3_encounter_augmentation [] [] [⟨0, 5⟩]).2 rfl⟩

/-- C4: for every series built by the continuous `fromObservationSet`
path (modelled from the spec), the display bounds contain every finite
y-value of the series and, when present, the normal bounds. -/
theorem c4_display_bounds_contain (os : List Observation)
    (encs : List Encounter) (s : LabeledSeries)
    (h : LabeledSeries.fromObservationSet os encs = .ok s) :
    (∀ v : ℚ, some v ∈ s.yValues →
      ∃ lo hi, s.yDisplayBounds = some (lo, hi) ∧ lo ≤ v ∧ v ≤ hi) ∧
    (∀ nl nh : ℚ, s.yNormalBounds = some (nl, nh) →
      ∃ lo hi, s.yDisplayBounds = some (lo, hi) ∧ lo ≤ nl ∧ nh ≤ hi) := by
  obtain ⟨nb, hcb, hs⟩ := fromObservationSet_ok_inv os encs s h
  subst hs
  constructor
  · intro v hv
    have hv2 : some v ∈ os.map (fun o => o.yValue) := by
      rcases addEncounterBreaks_snd_mem _ _ _ _ hv with h2 | h2
      · exact h2
      · cases h2
    obtain ⟨o, ho, hov⟩ := List.mem_map.mp hv2
    have hf : v ∈ os.filterMap (fun o => o.yValue) :=
      List.mem_filterMap.mpr ⟨o, ho, hov⟩
    rcases nb with _ | ⟨lo2, hi2⟩
    · exact boundsOf_contains _ v hf
    · exact boundsOf_contains _ v (List.mem_append_left _ hf)
  · intro nl nh hnb
    rcases nb with _ | ⟨lo2, hi2⟩
    · simp at hnb
    · simp only [LabeledSeries.yNormalBounds] at hnb
      injection hnb with h2
      have hfst : lo2 = nl := congrArg Prod.fst h2
      have hsnd : hi2 = nh := congrArg Prod.snd h2
      subst hfst
      subst hsnd
      obtain ⟨lo, hi, hb, ha1, -⟩ := boundsOf_contains
        (os.filterMap (fun o => o.yValue) ++ [lo2, hi2]) lo2 (by simp)
      obtain ⟨lo3, hi3, hb2, -, hb4⟩ := boundsOf_contains
        (os.filterMap (fun o => o.yValue) ++ [lo2, hi2]) hi2 (by simp)
      rw [hb] at hb2
      injection hb2 with h3
      have hh : hi = hi3 := congrArg Prod.snd h3
      exact ⟨lo, hi, hb, ha1, by rw [hh]; exact hb4⟩

/-- C4 witness: the display-bounds invariant at a concrete observation
set (values 1, 10, 100 with normal range [1, 90], giving display bounds
[1, 100]) — the bounds contain the largest y-value and the normal range. -/
theorem c4_display_bounds_contain_witness :
    LabeledSeries.fromObservationSet osC4 [] = .ok sC4 ∧
    (∃ lo hi, sC4.yDisplayBounds = some (lo, hi) ∧ lo ≤ 100 ∧ (100 : ℚ) ≤ hi) ∧
    (∃ lo hi, sC4.yDisplayBounds = some (lo, hi) ∧ lo ≤ 1 ∧ (90 : ℚ) ≤ hi) :=
  ⟨rfl,
   (c4_display_bounds_contain osC4 [] sC4 rfl).1 100 (by decide),
   (c4_display_bounds_contain osC4 [] sC4 rfl).2 1 90 rfl⟩

/-- C5 counterexample: a record whose coding list contains a recognized
LOINC coding first and a microbiology coding second. The microbiology
system is present among the codings, but the source only examines
`coding[0].system`, so the result keeps the LOINC-filtered codes and the
record's own text label — not the microbiology codes and display text the
claim requires. -/
theorem c5_micro_not_first_ignored :
    ((codingsC5.map (fun c => c.system)).contains (some cfg0.bchSystem)) = true ∧
    mkObservation cfg0 rC5 = .ok oC5 ∧
    oC5.codes = [RCode.lab "718-7"] ∧
    oC5.codes ≠ codingsC5.map (fun c => RCode.micro c.code) ∧
    oC5.label ≠ some "Micro display" :=
  ⟨by decide, rfl, rfl, by decide, by decide⟩

/-- C5 (amended): code resolution dispatches on the record's FIRST
coding's system — if it is the microbiology system, all codings are
mapped verbatim to microbiology codes and the label becomes that coding's
display; otherwise codings are filtered to recognized LOINC codes and the
label is the record's code text; and a record whose resolution yields
zero codes fails with the no-usable-code `InvalidRecord` error (provided
the interpretation and component stages do not fail first). -/
theorem c5_code_resolution_amended (cfg : CodingConfig) (j : RawObservation)
    (txt : Option String) (c0 : RawCoding) (rest : List RawCoding)
    (hcode : j.code = some ⟨txt, some (c0 :: rest)⟩) :
    (c0.system = some cfg.bchSystem →
      ∀ o, mkObservation cfg j = .ok o →
        o.codes = (c0 :: rest).map (fun c => RCode.micro c.code) ∧
        o.label = c0.display) ∧
    (c0.system ≠ some cfg.bchSystem →
      ∀ o, mkObservation cfg j = .ok o →
        o.codes = (c0 :: rest).filterMap
          (fun c =>
            if systemLoincOk cfg c.system && cfg.loincRecognized c.code then
              some (RCode.lab c.code)
            else none) ∧
        o.label = txt) ∧
    (∀ lbl disp, resolveCodes cfg j.code = .ok ([], lbl, disp) →
      ∀ v, resolveInterpretation cfg j.interpretation = .ok v →
      ∀ inner, mkComponents cfg (rawTimestamp j) j.component = .ok inner →
      mkObservation cfg j = .error .noUsableCode) := by
  refine ⟨?_, ?_, ?_⟩
  · intro hsys o ho
    obtain ⟨codes, label0, display, v, inner, hrc, -, -, hshape⟩ :=
      mkObservation_ok_inv cfg j o ho
    rw [hcode, resolveCodes_bch cfg txt c0 rest hsys] at hrc
    injection hrc with h2
    have hc2 : (c0 :: rest).map (fun c => RCode.micro c.code) = codes :=
      congrArg (fun t => t.1) h2
    have hl2 : c0.display = label0 := congrArg (fun t => t.2.1) h2
    rw [hshape]
    exact ⟨hc2.symm, hl2.symm⟩
  · intro hsys o ho
    obtain ⟨codes, label0, display, v, inner, hrc, -, -, hshape⟩ :=
      mkObservation_ok_inv cfg j o ho
    rw [hcode, resolveCodes_loinc cfg txt c0 rest hsys] at hrc
    injection hrc with h2
    have hc2 : (c0 :: rest).filterMap
        (fun c =>
          if systemLoincOk cfg c.system && cfg.loincRecognized c.code then
            some (RCode.lab c.code)
          else none) = codes :=
      congrArg (fun t => t.1) h2
    have hl2 : txt = label0 := congrArg (fun t => t.2.1) h2
    rw [hshape]
    exact ⟨hc2.symm, hl2.symm⟩
  · intro lbl disp hrc0 v hri inner hmc
    rcases j with ⟨eff, iss, code, interp, comp, vq, vcc, refR⟩
    rw [mkObservation_eq_core cfg eff iss code interp comp vq vcc refR hrc0
      hri hmc]
    rfl

/-- C5 witness: the amended resolution at concrete records — a record
whose first coding is microbiology gets verbatim microbiology codes and
the display label; a LOINC-first record gets filtered LOINC codes and the
record text; a record with no usable coding fails with the
no-usable-code error. -/
theorem c5_code_resolution_amended_witness :
    (oC5bch.codes = [RCode.micro "MICRO-1"] ∧
      oC5bch.label = some "Micro display") ∧
    (oC5.codes = [RCode.lab "718-7"] ∧ oC5.label = some "Hemoglobin") ∧
    mkObservation cfg0 rC5none = .error .noUsableCode :=
  ⟨(c5_code_resolution_amended cfg0 rC5bch (some "irrelevant") _ [] rfl).1
      rfl oC5bch rfl,
   (c5_code_resolution_amended cfg0 rC5 (some "Hemoglobin") _ _ rfl).2.1
      (by decide) oC5 rfl,
   (c5_code_resolution_amended cfg0 rC5none (some "Something") _ [] rfl).2.2
      (some "Something") none rfl .undefv rfl [] rfl⟩

/-- C6: a valid record (codes resolve non-empty, truthy label, whole
interpretation and component stages succeed) carrying at least one of
quantity, qualitative result, interpretation or components parses
successfully, and the result's normal range is populated exactly when the
record carries a single reference-range entry with both bounds. -/
theorem c6_normal_range_iff (cfg : CodingConfig) (j : RawObservation)
    (hv : validObs cfg j = true)
    (hone : (j.valueQuantity.isSome || j.valueCodeableConcept.isSome ||
      j.interpretation.isSome || !j.component.isEmpty) = true) :
    ∃ o, mkObservation cfg j = .ok o ∧
      ∀ lo hi : ℚ, (o.normalRange = some (lo, hi) ↔
        j.referenceRange = some [⟨some lo, some hi⟩]) := by
  obtain ⟨o, ho⟩ := mkObservation_ok_of_valid cfg j hv
  obtain ⟨codes, label0, display, v, inner, -, -, -, hshape⟩ :=
    mkObservation_ok_inv cfg j o ho
  refine ⟨o, ho, ?_⟩
  intro lo hi
  rw [hshape]
  exact rangeOf_eq_some_iff j.referenceRange lo hi

/-- C6 witness: the normal-range characterization at a concrete valid
record carrying a quantity and one complete low/high range entry. -/
theorem c6_normal_range_iff_witness :
    validObs cfg0 rC6 = true ∧
    (rC6.valueQuantity.isSome || rC6.valueCodeableConcept.isSome ||
      rC6.interpretation.isSome || !rC6.component.isEmpty) = true ∧
    ∃ o, mkObservation cfg0 rC6 = .ok o ∧
      ∀ lo hi : ℚ, (o.normalRange = some (lo, hi) ↔
        rC6.referenceRange = some [⟨some lo, some hi⟩]) :=
  ⟨rfl, rfl, c6_normal_range_iff cfg0 rC6 rfl rfl⟩

/-- C7: the series reconstructed from a two-order medication order set
(modelled from the spec) is a permutation of both orders' administrations
merged together, its points are sorted by timestamp, and swapping the two
orders yields the same point multiset, again timestamp-sorted; the series
x/y lists are exactly the merged points' timestamps and doses. -/
theorem c7_order_set_merge (o1 o2 : MedicationOrder) :
    List.Perm (mergedAdministrations [o1, o2])
      (o1.administrations ++ o2.administrations) ∧
    List.Sorted admLE (mergedAdministrations [o1, o2]) ∧
    List.Perm (mergedAdministrations [o2, o1])
      (mergedAdministrations [o1, o2]) ∧
    List.Sorted admLE (mergedAdministrations [o2, o1]) ∧
    LabeledSeries.fromMedicationOrderSet [o1, o2] [] =
      ⟨(mergedAdministrations [o1, o2]).map (fun a => some a.timestamp),
       (mergedAdministrations [o1, o2]).map (fun a => some a.dose), none,
       boundsOf ((mergedAdministrations [o1, o2]).map (fun a => a.dose))⟩ := by
  refine ⟨?_, mergedAdministrations_sorted _, ?_,
    mergedAdministrations_sorted _, fromMedicationOrderSet_noEnc _⟩
  · exact allAdministrations_pair o1 o2 ▸ mergedAdministrations_perm [o1, o2]
  · have h1 := mergedAdministrations_perm [o2, o1]
    rw [allAdministrations_pair] at h1
    have h2 := mergedAdministrations_perm [o1, o2]
    rw [allAdministrations_pair] at h2
    exact h1.trans (List.perm_append_comm.trans h2.symm)

/-- C8: a code group containing two codes of different coding-system
variants makes the synchronous dispatch prefix of `Axis.getDataFromFhir`
fail with `MixedCodeTypes`; no fetch path is ever selected. -/
theorem c8_mixed_code_types (codes : List RCode) (ct : ChartType)
    (a b : RCode) (ha : a ∈ codes) (hb : b ∈ codes)
    (hne : a.variant ≠ b.variant) :
    axisDispatch codes ct = .error .mixedCodeTypes :=
  axisDispatch_mixed codes ct a b ha hb hne

/-- C8 witness: a group with one lab code and one medication code fails
with `MixedCodeTypes`. -/
theorem c8_mixed_code_types_witness :
    axisDispatch [RCode.lab "718-7", RCode.med "11124"] ChartType.STEP =
      .error .mixedCodeTypes :=
  c8_mixed_code_types _ _ (RCode.lab "718-7") (RCode.med "11124")
    (by decide) (by decide) (by decide)

/-- C9: for a record whose interpretation carries a first coding from the
recognized value-set with an unrecognized code, construction fails with
`UnsupportedInterpretation` (given the code-resolution stage did not
crash); a first coding from any other value-set is silently ignored — the
interpretation stage yields undefined and any successfully constructed
observation has no interpretation set. -/
theorem c9_interpretation_valueset (cfg : CodingConfig) (j : RawObservation)
    (c0 : RawCoding) (cs : List RawCoding)
    (hi : j.interpretation = some ⟨some (c0 :: cs)⟩)
    (t : List RCode × Option String × Option String)
    (hrc : resolveCodes cfg j.code = .ok t) :
    (c0.system = some cfg.interpUrl → cfg.interpHas c0.code = false →
      mkObservation cfg j = .error (.unsupportedInterpretation c0.code)) ∧
    (c0.system ≠ some cfg.interpUrl →
      resolveInterpretation cfg j.interpretation = .ok .undefv ∧
      ∀ o, mkObservation cfg j = .ok o → o.interpretation = .undefv) := by
  constructor
  · intro hsys hhas
    have hri : resolveInterpretation cfg j.interpretation =
        .error (.unsupportedInterpretation c0.code) := by
      rw [hi]
      simp [resolveInterpretation, hsys, hhas]
    rcases j with ⟨eff, iss, code, interp, comp, vq, vcc, refR⟩
    exact mkObservation_interp_error cfg eff iss code interp comp vq vcc refR
      hrc hri
  · intro hsys
    have hri : resolveInterpretation cfg j.interpretation = .ok .undefv := by
      rw [hi]
      simp [resolveInterpretation, hsys]
    refine ⟨hri, ?_⟩
    intro o ho
    obtain ⟨codes, label0, display, v, inner, -, hri2, -, hshape⟩ :=
      mkObservation_ok_inv cfg j o ho
    rw [hri] at hri2
    injection hri2 with hv
    rw [hshape, ← hv]
    rfl

/-- C9 witness: at concrete records — a value-set coding with the
unrecognized code WEIRD aborts construction with
`UnsupportedInterpretation`, while a coding from another system is
ignored and the constructed observation has undefined interpretation. -/
theorem c9_interpretation_valueset_witness :
    mkObservation cfg0 rC9bad = .error (.unsupportedInterpretation "WEIRD") ∧
    resolveInterpretation cfg0 rC9other.interpretation = .ok .undefv ∧
    oC9.interpretation = .undefv :=
  ⟨(c9_interpretation_valueset cfg0 rC9bad _ [] rfl
      ([RCode.lab "718-7"], some "Hemoglobin", none) rfl).1 rfl rfl,
   ((c9_interpretation_valueset cfg0 rC9other _ [] rfl
      ([RCode.lab "718-7"], some "Hemoglobin", none) rfl).2 (by decide)).1,
   ((c9_interpretation_valueset cfg0 rC9other _ [] rfl
      ([RCode.lab "718-7"], some "Hemoglobin", none) rfl).2 (by decide)).2
      oC9 rfl⟩

/-- C10: the empty code group passes all three vacuous homogeneity checks
and, because the all-medication check is consulted first, is dispatched
to the medication path chosen by the chart style, never failing with
`MixedCodeTypes`. -/
theorem c10_empty_group_medication_path (ct : ChartType) :
    axisDispatch [] ct =
      .ok (if ct = ChartType.STEP then FetchPath.medicationSummary
           else FetchPath.medicationDetail) ∧
    axisDispatch [] ct ≠ .error .mixedCodeTypes := by
  cases ct <;> exact ⟨rfl, fun h => nomatch h⟩
